import Mathlib

/-!
Shallow embedding of the socket chat server in `src/server/server.js`.
The in-memory registries (`users`, `typingUsers`), the Mongo-backed message
store and every socket event handler are translated into pure Lean
functions; each handler maps a server state and event arguments to the new
state together with the list of emitted events.  Timestamps are passed in
explicitly as a `now : Nat` argument.  Handlers are modelled as atomic
steps (the node event loop runs one handler body at a time; the store
collaborator is modelled as always succeeding, matching the success path —
the catch branches only log and change no registry state).
-/

namespace Chat

/-- One entry of the in-memory `users` object (server.js lines 170-176). -/
structure User where
  id : String
  username : String
  room : String
  online : Bool
  joinedAt : Nat
deriving DecidableEq

/-- One entry of a message's `reactions` array (schema line 115). -/
structure Reaction where
  userId : String
  emoji : String
deriving DecidableEq

/-- A persisted chat message (the mongoose schema, lines 105-120).
`mid` models the store-assigned id; `createdAt`/`updatedAt` come from
`timestamps: true`. -/
structure Message where
  mid : Nat
  sender : String
  senderId : String
  message : String
  room : String
  isPrivate : Bool
  recipientId : Option String
  delivered : Bool
  read : Bool
  reactions : List Reaction
  edited : Bool
  image : Option String
  createdAt : Nat
  updatedAt : Nat
deriving DecidableEq

/-- Projection used for every `user_list` broadcast (lines 184-189,
278-283, 391-396). -/
structure UserProj where
  id : String
  username : String
  room : String
  online : Bool
deriving DecidableEq

def projUser (u : User) : UserProj := ⟨u.id, u.username, u.room, u.online⟩

/-- The whole mutable server state: the two JS objects (modelled as
association lists in key-insertion order, keys unique by construction)
plus the message store and its id counter. -/
structure ServerState where
  users : List (String × User)
  typingUsers : List (String × String)
  store : List Message
  nextMid : Nat
deriving DecidableEq

def initState : ServerState := ⟨[], [], [], 0⟩

/-- JS object read `o[k]` (undefined becomes `none`). -/
def alistGet {α : Type} (l : List (String × α)) (k : String) : Option α :=
  (l.find? (fun p => p.1 == k)).map (fun p => p.2)

/-- JS object write `o[k] = v`: overwrite in place, else append. -/
def alistSet {α : Type} (l : List (String × α)) (k : String) (v : α) :
    List (String × α) :=
  match l with
  | [] => [(k, v)]
  | p :: rest => if p.1 == k then (k, v) :: rest else p :: alistSet rest k v

/-- JS `delete o[k]`. -/
def alistDelete {α : Type} (l : List (String × α)) (k : String) :
    List (String × α) :=
  l.filter (fun p => p.1 != k)

/-- The fixed public room set (line 128). -/
def rooms : List String := ["general", "random", "tech", "gaming"]

def isWsChar (c : Char) : Bool :=
  c == ' ' || c == '\t' || c == '\n' || c == '\r'

def trimChars (cs : List Char) : List Char :=
  ((cs.dropWhile isWsChar).reverse.dropWhile isWsChar).reverse

def charDigit (c : Char) : Option Nat :=
  if 48 ≤ c.toNat && c.toNat ≤ 57 then some (c.toNat - 48) else none

def parseDigitsAux : List Char → Nat → Option Nat
  | [], acc => some acc
  | c :: cs, acc =>
    match charDigit c with
    | some d => parseDigitsAux cs (acc * 10 + d)
    | none => none

def parseDigits : List Char → Option Nat
  | [] => none
  | c :: cs => parseDigitsAux (c :: cs) 0

/-- JS `ToNumber` on an id string, `none` standing for `NaN`.  Modelled
for whitespace/empty strings (which coerce to 0) and optional-sign decimal
integer literals; every other string — in particular every socket.io id —
coerces to `NaN`.  Fractional/exponent/hex numeric forms are outside the
modelled id alphabet. -/
def jsToNumber (s : String) : Option Int :=
  match trimChars s.data with
  | [] => some 0
  | c :: cs =>
    if c == '-' then (parseDigits cs).map (fun n => -(n : Int))
    else if c == '+' then (parseDigits cs).map (fun n => (n : Int))
    else (parseDigits (c :: cs)).map (fun n => (n : Int))

/-- JS `Math.min` on two coerced values: `NaN` if either is `NaN`. -/
def jsMin (a b : Option Int) : Option Int :=
  match a, b with
  | some x, some y => some (min x y)
  | _, _ => none

/-- JS `Math.max` on two coerced values: `NaN` if either is `NaN`. -/
def jsMax (a b : Option Int) : Option Int :=
  match a, b with
  | some x, some y => some (max x y)
  | _, _ => none

/-- Template-literal stringification of a JS number. -/
def jsNumToString : Option Int → String
  | none => "NaN"
  | some n => toString n

/-- The private room identifier of line 352:
`` `private-${Math.min(socket.id, toUserId)}-${Math.max(socket.id, toUserId)}` ``.
Note `Math.min`/`Math.max` numerically coerce the two id strings. -/
def derivePrivateRoomId (a b : String) : String :=
  "private-" ++ jsNumToString (jsMin (jsToNumber a) (jsToNumber b)) ++ "-" ++
    jsNumToString (jsMax (jsToNumber a) (jsToNumber b))

/-- Lexicographic comparison of two strings by code point. -/
def charListLe : List Char → List Char → Bool
  | [], _ => true
  | _ :: _, [] => false
  | a :: as, b :: bs =>
    if a.toNat < b.toNat then true
    else if b.toNat < a.toNat then false
    else charListLe as bs

def strLe (a b : String) : Bool := charListLe a.data b.data

/-- Modelled from the spec: the Private Channel Deriver as the spec words
it — "a string built from the two connection ids ordered by a total order
(e.g., lexicographic)".  Kept only to compare against the code's
`derivePrivateRoomId`. -/
def deriveRoomIdSpec (a b : String) : String :=
  if strLe a b then "private-" ++ a ++ "-" ++ b
  else "private-" ++ b ++ "-" ++ a

/-- Mongo `find({room}).sort({createdAt:1})`: ascending stable sort by
`createdAt` (tie order is unspecified by the store; the model picks the
stable one). -/
def sortByTime (l : List Message) : List Message :=
  List.insertionSort (fun a b => a.createdAt ≤ b.createdAt) l

/-- `Message.find({ room }).sort({ createdAt: 1 }).limit(100)`
(lines 181 and 274): the FIRST 100 messages of the ascending order. -/
def historyFor (store : List Message) (r : String) : List Message :=
  (sortByTime (store.filter (fun m => m.room == r))).take 100

/-- Modelled from the spec: "the most recent N messages", ordered by
creation time — the LAST `n` of the ascending order.  Kept only to compare
against the code's `historyFor`. -/
def mostRecentSpec (store : List Message) (r : String) (n : Nat) :
    List Message :=
  let s := sortByTime (store.filter (fun m => m.room == r))
  s.drop (s.length - n)

/-- Targets of socket.io emissions as they appear in the handlers. -/
inductive Target where
  | all                                   -- io.emit
  | room (r : String)                     -- io.to(r).emit; r may be a socket id room
  | broadcastRoom (actor r : String)      -- socket.broadcast.to(r).emit
  | self (sid : String)                   -- socket.emit
deriving DecidableEq

/-- Event payloads, one constructor per outbound event name. -/
inductive Payload where
  | availableRooms (rs : List String)
  | messageHistory (ms : List Message)
  | userList (us : List UserProj)
  | notification (ntype nmessage nroom : String)
  | receiveMessage (m : Message)
  | messageUpdated (m : Message)
  | messageDeleted (mid : Nat)
  | roomJoined (r : String)
  | typingUsers (names : List String)
deriving DecidableEq

structure Emit where
  target : Target
  payload : Payload
deriving DecidableEq

/-- Current named room of a connection, read off the registry. -/
def userRoom (st : ServerState) (sid : String) : Option String :=
  (alistGet st.users sid).map (fun u => u.room)

/-- Whether connection `c` receives an emission with target `t`, in state
`st`.  Every socket is a member of the room named by its own id; a
registered socket is additionally a member of its current named room
(socket.join/leave keep transport membership in lockstep with
`users[id].room`). `socket.broadcast` excludes the emitting socket. -/
def receives (st : ServerState) (t : Target) (c : String) : Bool :=
  match t with
  | .all => true
  | .room r => c == r || userRoom st c == some r
  | .broadcastRoom actor r => c != actor && (c == r || userRoom st c == some r)
  | .self sid => c == sid

/-- JS `x || dflt` for an optional string argument (empty string is
falsy). -/
def jsOrS (x : Option String) (dflt : String) : String :=
  match x with
  | some s => if s = "" then dflt else s
  | none => dflt

/-- JS `image || null` (empty string collapses to null). -/
def jsOrNull (x : Option String) : Option String :=
  match x with
  | some s => if s = "" then none else some s
  | none => none

/-- `Message.findById` (mids are unique by construction). -/
def fetchMsg (store : List Message) (mid : Nat) : Option Message :=
  store.find? (fun m => m.mid == mid)

/-- Persisting a fetched-and-mutated document back (`message.save()`):
replace the document with that id. -/
def replaceMsg (store : List Message) (mid : Nat) (m : Message) :
    List Message :=
  store.map (fun x => if x.mid == mid then m else x)

/-- The reaction upsert of lines 315-320: overwrite the first entry with
this `userId`, else push. -/
def reactUpsert : List Reaction → String → String → List Reaction
  | [], uid, e => [⟨uid, e⟩]
  | r :: rs, uid, e =>
    if r.userId == uid then { r with emoji := e } :: rs
    else r :: reactUpsert rs uid e

/-- Number of reaction entries keyed by `uid`. -/
def countUser (rs : List Reaction) (uid : String) : Nat :=
  (rs.filter (fun r => r.userId == uid)).length

/-- The stored emoji for `uid` (first entry, as `findIndex` finds it). -/
def findEmoji (rs : List Reaction) (uid : String) : Option String :=
  (rs.find? (fun r => r.userId == uid)).map (fun r => r.emoji)

/-- Iterated reaction upserts by one user. -/
def applyReactions (rs : List Reaction) (uid : String) : List String → List Reaction
  | [] => rs
  | e :: es => applyReactions (reactUpsert rs uid e) uid es

/-- The `user_join` handler (lines 168-196): unconditionally (over)writes
the registry entry, joins `general`, then emits `available_rooms`,
`message_history`, `user_list` (unfiltered) and a room-scoped join
`notification` excluding the actor. -/
def stepUserJoin (st : ServerState) (sid username : String) (now : Nat) :
    ServerState × List Emit :=
  let u : User := ⟨sid, username, "general", true, now⟩
  let users1 := alistSet st.users sid u
  ({ st with users := users1 },
   [⟨.self sid, .availableRooms rooms⟩,
    ⟨.self sid, .messageHistory (historyFor st.store "general")⟩,
    ⟨.all, .userList (users1.map (fun p => projUser p.2))⟩,
    ⟨.broadcastRoom sid "general",
      .notification "join" (username ++ " joined the chat") "general"⟩])

/-- The `send_message` handler (lines 198-219). -/
def stepSendMessage (st : ServerState) (sid : String)
    (message room image : Option String) (now : Nat) :
    ServerState × List Emit :=
  match alistGet st.users sid with
  | none => (st, [])
  | some user =>
    let targetRoom := jsOrS room user.room
    let nm : Message :=
      ⟨st.nextMid, user.username, sid, jsOrS message "📷 Image", targetRoom,
       false, none, true, false, [], false, jsOrNull image, now, now⟩
    ({ st with store := st.store ++ [nm], nextMid := st.nextMid + 1 },
     [⟨.room targetRoom, .receiveMessage nm⟩])

/-- The `edit_message` handler (lines 223-237). -/
def stepEditMessage (st : ServerState) (mid : Nat) (content : String)
    (now : Nat) : ServerState × List Emit :=
  match fetchMsg st.store mid with
  | none => (st, [])
  | some m =>
    let m1 := { m with message := content, edited := true, updatedAt := now }
    ({ st with store := replaceMsg st.store mid m1 },
     [⟨.room m1.room, .messageUpdated m1⟩])

/-- The `delete_message` handler (lines 239-251). -/
def stepDeleteMessage (st : ServerState) (mid : Nat) :
    ServerState × List Emit :=
  match fetchMsg st.store mid with
  | none => (st, [])
  | some m =>
    ({ st with store := st.store.filter (fun x => x.mid != mid) },
     [⟨.room m.room, .messageDeleted mid⟩])

/-- The `join_room` handler (lines 253-284).  The guard of line 255 makes
an unregistered sender, an invalid target room or the current room a
silent no-op. -/
def stepJoinRoom (st : ServerState) (sid newRoom : String) :
    ServerState × List Emit :=
  match alistGet st.users sid with
  | none => (st, [])
  | some user =>
    if !(rooms.contains newRoom) || user.room == newRoom then (st, [])
    else
      let oldRoom := user.room
      let users1 := alistSet st.users sid { user with room := newRoom }
      ({ st with users := users1 },
       [⟨.broadcastRoom sid oldRoom,
          .notification "leave" (user.username ++ " left the room") oldRoom⟩,
        ⟨.broadcastRoom sid newRoom,
          .notification "join" (user.username ++ " joined the room") newRoom⟩,
        ⟨.self sid, .messageHistory (historyFor st.store newRoom)⟩,
        ⟨.self sid, .roomJoined newRoom⟩,
        ⟨.all, .userList (users1.map (fun p => projUser p.2))⟩])

/-- The room-scoped typing list of the `typing_start` handler
(lines 291-293): entries whose owner is in room `r`, excluding the actor. -/
def roomTypingExcl (users : List (String × User))
    (typing : List (String × String)) (r sid : String) : List String :=
  (typing.filter (fun p =>
    (match alistGet users p.1 with
     | some u => u.room == r
     | none => false) && p.1 != sid)).map (fun p => p.2)

/-- The room-scoped typing list of the `typing_stop` handler
(lines 303-305): entries whose owner is in room `r`, no actor exclusion. -/
def roomTypingAll (users : List (String × User))
    (typing : List (String × String)) (r : String) : List String :=
  (typing.filter (fun p =>
    match alistGet users p.1 with
    | some u => u.room == r
    | none => false)).map (fun p => p.2)

/-- The `typing_start` handler (lines 286-296). -/
def stepTypingStart (st : ServerState) (sid : String) :
    ServerState × List Emit :=
  match alistGet st.users sid with
  | none => (st, [])
  | some user =>
    let typing1 := alistSet st.typingUsers sid user.username
    ({ st with typingUsers := typing1 },
     [⟨.broadcastRoom sid user.room,
        .typingUsers (roomTypingExcl st.users typing1 user.room sid)⟩])

/-- The `typing_stop` handler (lines 298-308).  Note the broadcast still
goes through `socket.broadcast.to(user.room)`, i.e. it excludes the actor
exactly like the start case. -/
def stepTypingStop (st : ServerState) (sid : String) :
    ServerState × List Emit :=
  match alistGet st.users sid with
  | none => (st, [])
  | some user =>
    let typing1 := alistDelete st.typingUsers sid
    ({ st with typingUsers := typing1 },
     [⟨.broadcastRoom sid user.room,
        .typingUsers (roomTypingAll st.users typing1 user.room)⟩])

/-- The `add_reaction` handler (lines 310-328). -/
def stepAddReaction (st : ServerState) (sid : String) (mid : Nat)
    (emoji : String) (now : Nat) : ServerState × List Emit :=
  match fetchMsg st.store mid with
  | none => (st, [])
  | some m =>
    let m1 := { m with reactions := reactUpsert m.reactions sid emoji,
                       updatedAt := now }
    ({ st with store := replaceMsg st.store mid m1 },
     [⟨.room m1.room, .messageUpdated m1⟩])

/-- The `message_read` handler (lines 330-344). -/
def stepMessageRead (st : ServerState) (mid : Nat) (now : Nat) :
    ServerState × List Emit :=
  match fetchMsg st.store mid with
  | none => (st, [])
  | some m =>
    let m1 := { m with read := true, updatedAt := now }
    ({ st with store := replaceMsg st.store mid m1 },
     [⟨.room m1.room, .messageUpdated m1⟩])

/-- The message persisted by `private_message` (lines 355-362). -/
def privMsgOf (st : ServerState) (sid toUserId body : String) (now : Nat)
    (sender : User) : Message :=
  ⟨st.nextMid, sender.username, sid, body, derivePrivateRoomId sid toUserId,
   true, some toUserId, true, false, [], false, none, now, now⟩

/-- The `private_message` handler (lines 346-377): silent no-op unless
both ends are registered; delivers `receive_message` to the two id rooms
and a private `notification` to the recipient's id room. -/
def stepPrivateMessage (st : ServerState) (sid toUserId body : String)
    (now : Nat) : ServerState × List Emit :=
  match alistGet st.users sid, alistGet st.users toUserId with
  | some sender, some _ =>
    let nm := privMsgOf st sid toUserId body now sender
    ({ st with store := st.store ++ [nm], nextMid := st.nextMid + 1 },
     [⟨.room sid, .receiveMessage nm⟩,
      ⟨.room toUserId, .receiveMessage nm⟩,
      ⟨.room toUserId,
        .notification "private"
          ("New private message from " ++ sender.username)
          (derivePrivateRoomId sid toUserId)⟩])
  | _, _ => (st, [])

/-- The `disconnect` handler (lines 379-401): mark offline, drop the
typing entry, notify the old room, broadcast the online-filtered roster,
then delete the registry entry. -/
def stepDisconnect (st : ServerState) (sid : String) :
    ServerState × List Emit :=
  match alistGet st.users sid with
  | none => (st, [])
  | some user =>
    let users1 := alistSet st.users sid { user with online := false }
    ({ st with users := alistDelete users1 sid,
               typingUsers := alistDelete st.typingUsers sid },
     [⟨.broadcastRoom sid user.room,
        .notification "leave" (user.username ++ " disconnected") user.room⟩,
      ⟨.all, .userList ((users1.filter (fun p => p.2.online)).map (fun p => projUser p.2))⟩])

/-- Inbound events, one constructor per socket handler. -/
inductive Ev where
  | userJoin (sid username : String)
  | sendMessage (sid : String) (message room image : Option String)
  | editMessage (mid : Nat) (content : String)
  | deleteMessage (mid : Nat)
  | joinRoom (sid newRoom : String)
  | typingStart (sid : String)
  | typingStop (sid : String)
  | addReaction (sid : String) (mid : Nat) (emoji : String)
  | messageRead (mid : Nat)
  | privateMessage (sid toUserId body : String)
  | disconnect (sid : String)
deriving DecidableEq

/-- Dispatch of `io.on('connection')` socket events to their handlers. -/
def step (st : ServerState) (ev : Ev) (now : Nat) : ServerState × List Emit :=
  match ev with
  | .userJoin sid username => stepUserJoin st sid username now
  | .sendMessage sid message room image =>
      stepSendMessage st sid message room image now
  | .editMessage mid content => stepEditMessage st mid content now
  | .deleteMessage mid => stepDeleteMessage st mid
  | .joinRoom sid newRoom => stepJoinRoom st sid newRoom
  | .typingStart sid => stepTypingStart st sid
  | .typingStop sid => stepTypingStop st sid
  | .addReaction sid mid emoji => stepAddReaction st sid mid emoji now
  | .messageRead mid => stepMessageRead st mid now
  | .privateMessage sid toUserId body =>
      stepPrivateMessage st sid toUserId body now
  | .disconnect sid => stepDisconnect st sid

/-- Run a sequence of timed events from a state. -/
def runFrom (st : ServerState) : List (Ev × Nat) → ServerState
  | [] => st
  | p :: ps => runFrom (step st p.1 p.2).1 ps

/-- All emissions produced while running a sequence of timed events. -/
def emitsFrom (st : ServerState) : List (Ev × Nat) → List Emit
  | [] => []
  | p :: ps => (step st p.1 p.2).2 ++ emitsFrom (step st p.1 p.2).1 ps

/-- Whether the event acts on the registries under the given socket id
(these are exactly the handlers that read or write `users[sid]` /
`typingUsers[sid]` for their own socket). -/
def registryActor : Ev → String → Bool
  | .userJoin sid _, a => sid == a
  | .joinRoom sid _, a => sid == a
  | .typingStart sid, a => sid == a
  | .typingStop sid, a => sid == a
  | .disconnect sid, a => sid == a
  | _, _ => false

/-! ### Association-list lemmas -/

theorem jsMin_none_left (b : Option Int) : jsMin none b = none := by
  cases b <;> rfl

theorem jsMin_none_right (a : Option Int) : jsMin a none = none := by
  cases a <;> rfl

theorem jsMax_none_left (b : Option Int) : jsMax none b = none := by
  cases b <;> rfl

theorem jsMax_none_right (a : Option Int) : jsMax a none = none := by
  cases a <;> rfl

theorem jsMin_comm (a b : Option Int) : jsMin a b = jsMin b a := by
  cases a <;> cases b <;> simp [jsMin, min_comm]

theorem jsMax_comm (a b : Option Int) : jsMax a b = jsMax b a := by
  cases a <;> cases b <;> simp [jsMax, max_comm]

theorem alistGet_alistSet_self {α : Type} (l : List (String × α))
    (k : String) (v : α) : alistGet (alistSet l k v) k = some v := by
  induction l with
  | nil => simp [alistGet, alistSet, List.find?]
  | cons p rest ih =>
    by_cases h : p.1 == k
    · simp [alistSet, h, alistGet, List.find?]
    · simp only [alistSet, h, if_neg, Bool.false_eq_true, ite_false]
      simpa [alistGet, List.find?, h] using ih

theorem mem_alistSet {α : Type} {l : List (String × α)} {k : String}
    {v : α} {p : String × α} (h : p ∈ alistSet l k v) :
    p = (k, v) ∨ p ∈ l := by
  induction l with
  | nil => simpa [alistSet] using h
  | cons q rest ih =>
    by_cases hq : q.1 == k
    · simp only [alistSet, hq, if_pos] at h
      rcases List.mem_cons.1 h with h1 | h1
      · exact Or.inl h1
      · exact Or.inr (List.mem_cons_of_mem _ h1)
    · simp only [alistSet, hq, Bool.false_eq_true, if_neg] at h
      rcases List.mem_cons.1 h with h1 | h1
      · exact Or.inr (h1 ▸ List.mem_cons_self _ _)
      · rcases ih h1 with h2 | h2
        · exact Or.inl h2
        · exact Or.inr (List.mem_cons_of_mem _ h2)

theorem mem_alistDelete {α : Type} {l : List (String × α)} {k : String}
    {p : String × α} (h : p ∈ alistDelete l k) :
    p ∈ l ∧ p.1 ≠ k := by
  have h1 := List.of_mem_filter h
  refine ⟨List.mem_of_mem_filter h, ?_⟩
  simpa using h1

theorem alistGet_mem {α : Type} {l : List (String × α)} {k : String}
    {v : α} (h : alistGet l k = some v) : (k, v) ∈ l := by
  unfold alistGet at h
  cases hf : l.find? (fun p => p.1 == k) with
  | none => simp [hf] at h
  | some q =>
    rw [hf] at h
    have hq := List.find?_some hf
    have hm := List.mem_of_find?_eq_some hf
    rcases q with ⟨q1, q2⟩
    have hk : q1 = k := by simpa using hq
    have hv : q2 = v := by simpa using h
    rw [hk, hv] at hm
    exact hm

theorem alistDelete_eq_self {α : Type} {l : List (String × α)} {k : String}
    (h : ∀ p ∈ l, p.1 ≠ k) : alistDelete l k = l := by
  unfold alistDelete
  refine List.filter_eq_self.2 ?_
  intro p hp
  simpa using h p hp

/-! ### Claim C1 -/

/-- Claim C1, amended: the private room identifier of the
`private_message` path is symmetric — `derivePrivateRoomId a b =
derivePrivateRoomId b a` — but it is built from the JS numeric coercions
of the two ids through `Math.min`/`Math.max`, not from the ids ordered by
a total order: whenever either id does not coerce to a number (the case
for socket.io ids) the identifier is the constant `"private-NaN-NaN"`. -/
theorem C1_theorem :
    (∀ a b : String, derivePrivateRoomId a b = derivePrivateRoomId b a) ∧
    (∀ a b : String, jsToNumber a = none ∨ jsToNumber b = none →
      derivePrivateRoomId a b = "private-NaN-NaN") := by
  constructor
  · intro a b
    unfold derivePrivateRoomId
    rw [jsMin_comm, jsMax_comm]
  · intro a b h
    unfold derivePrivateRoomId
    rcases h with h | h
    · rw [h, jsMin_none_left, jsMax_none_left]
      rfl
    · rw [h, jsMin_none_right, jsMax_none_right]
      rfl

/-- Claim C1 witness: a concrete non-numeric pair of ids. -/
theorem C1_witness :
    derivePrivateRoomId "zzz" "q" = derivePrivateRoomId "q" "zzz" ∧
    derivePrivateRoomId "zzz" "q" = "private-NaN-NaN" :=
  ⟨C1_theorem.1 "zzz" "q", C1_theorem.2 "zzz" "q" (Or.inl (by decide))⟩

/-- Claim C1 counterexample: for the ids `"a"` and `"b"` the code's
identifier is `"private-NaN-NaN"`, not the string built from the two ids
in lexicographic order, so the claim's construction clause fails. -/
theorem C1_counterexample :
    derivePrivateRoomId "a" "b" = "private-NaN-NaN" ∧
    deriveRoomIdSpec "a" "b" = "private-a-b" ∧
    derivePrivateRoomId "a" "b" ≠ deriveRoomIdSpec "a" "b" := by
  refine ⟨by decide, by decide, by decide⟩

/-! ### Claim C5 -/

/-- Claim C5, amended: `user_join` performs no duplicate check at all: a
second join with an id already in the registry unconditionally overwrites
the registry entry (new display name, room reset to `"general"`, online
true) and runs the normal four join emissions; no `DuplicateConnection`
failure exists in the code. -/
theorem C5_theorem (st : ServerState) (sid username : String) (now : Nat) :
    (step st (.userJoin sid username) now).1.users
      = alistSet st.users sid ⟨sid, username, "general", true, now⟩ ∧
    alistGet (step st (.userJoin sid username) now).1.users sid
      = some ⟨sid, username, "general", true, now⟩ ∧
    ((step st (.userJoin sid username) now).2).length = 4 := by
  refine ⟨rfl, ?_, rfl⟩
  exact alistGet_alistSet_self st.users sid _

def st5 : ServerState := ⟨[("a", ⟨"a", "alice", "random", true, 0⟩)], [], [], 0⟩

/-- Claim C5 counterexample: with connection `"a"` already registered, a
second `user_join` for `"a"` does not fail — it replaces the registry
entry and emits the usual join events. -/
theorem C5_counterexample :
    alistGet st5.users "a" = some ⟨"a", "alice", "random", true, 0⟩ ∧
    alistGet ((step st5 (.userJoin "a" "bob") 7).1).users "a"
      = some ⟨"a", "bob", "general", true, 7⟩ ∧
    ((step st5 (.userJoin "a" "bob") 7).2).length = 4 := by
  refine ⟨rfl, rfl, rfl⟩

/-! ### Claim C6 -/

/-- Claim C6: `join_room` is a silent no-op — state unchanged and no
emission — when the sender is unregistered, the target room is not in the
fixed public room set, or the target room equals the current room. -/
theorem C6_theorem (st : ServerState) (sid newRoom : String) (now : Nat)
    (h : alistGet st.users sid = none ∨ rooms.contains newRoom = false ∨
         (∃ u : User, alistGet st.users sid = some u ∧ u.room = newRoom)) :
    step st (.joinRoom sid newRoom) now = (st, []) := by
  show stepJoinRoom st sid newRoom = (st, [])
  rcases h with h | h | ⟨u, hu, hr⟩
  · simp [stepJoinRoom, h]
  · cases hg : alistGet st.users sid with
    | none => simp [stepJoinRoom, hg]
    | some u =>
      unfold stepJoinRoom
      rw [hg, h]
      rfl
  · simp only [stepJoinRoom, hu]
    simp
    exact fun _ => hr

/-- Claim C6 witness: an unregistered connection asking for a valid room. -/
theorem C6_witness : step initState (.joinRoom "x" "tech") 0 = (initState, []) :=
  C6_theorem initState "x" "tech" 0 (Or.inl rfl)

/-! ### Claim C4 -/

/-- Claim C4, amended: `typing_stop` removes the actor's TypingState entry
and broadcasts the recomputed room list through `socket.broadcast`, i.e.
to everyone in the room EXCEPT the actor — the same recipient set as
`typing_start`; the start/stop asymmetry is only in the list computation
(start filters the actor out explicitly, stop only implicitly through the
deletion). -/
theorem C4_theorem (st : ServerState) (sid : String) (u : User) (now : Nat)
    (hu : alistGet st.users sid = some u) :
    (step st (.typingStop sid) now).1
      = { st with typingUsers := alistDelete st.typingUsers sid } ∧
    (step st (.typingStop sid) now).2
      = [⟨.broadcastRoom sid u.room,
          .typingUsers (roomTypingAll st.users
            (alistDelete st.typingUsers sid) u.room)⟩] ∧
    (step st (.typingStart sid) now).2
      = [⟨.broadcastRoom sid u.room,
          .typingUsers (roomTypingExcl st.users
            (alistSet st.typingUsers sid u.username) u.room sid)⟩] ∧
    receives st (.broadcastRoom sid u.room) sid = false ∧
    (∀ c, c ≠ sid → userRoom st c = some u.room →
      receives st (.broadcastRoom sid u.room) c = true) := by
  refine ⟨?_, ?_, ?_, ?_, ?_⟩
  · show (stepTypingStop st sid).1 = _
    simp [stepTypingStop, hu]
  · show (stepTypingStop st sid).2 = _
    simp [stepTypingStop, hu]
  · show (stepTypingStart st sid).2 = _
    simp [stepTypingStart, hu]
  · simp [receives]
  · intro c hc hr
    simp [receives, hc, hr]

def st4 : ServerState :=
  ⟨[("a", ⟨"a", "alice", "general", true, 0⟩),
    ("b", ⟨"b", "bob", "general", true, 0⟩)], [("a", "alice")], [], 0⟩

/-- Claim C4 counterexample: connection `"a"` is registered in
`"general"`, yet the `typing_stop` broadcast does not reach `"a"` — its
recipient set is not "everyone in room" but "everyone in room except the
actor". -/
theorem C4_counterexample :
    (step st4 (.typingStop "a") 0).2
      = [⟨.broadcastRoom "a" "general", .typingUsers []⟩] ∧
    userRoom st4 "a" = some "general" ∧
    receives st4 (.broadcastRoom "a" "general") "a" = false ∧
    receives st4 (.broadcastRoom "a" "general") "b" = true := by
  refine ⟨by decide, by decide, by decide, by decide⟩

/-! ### Claim C2 -/

instance : IsTotal Message (fun a b => a.createdAt ≤ b.createdAt) :=
  ⟨fun a b => Nat.le_total a.createdAt b.createdAt⟩

instance : IsTrans Message (fun a b => a.createdAt ≤ b.createdAt) :=
  ⟨fun _ _ _ h1 h2 => Nat.le_trans h1 h2⟩

theorem timeSorted_historyFor (store : List Message) (r : String) :
    List.Sorted (fun a b : Message => a.createdAt ≤ b.createdAt)
      (historyFor store r) := by
  have hs : List.Sorted (fun a b : Message => a.createdAt ≤ b.createdAt)
      (sortByTime (store.filter (fun m => m.room == r))) :=
    List.sorted_insertionSort _ _
  exact List.Pairwise.sublist (List.take_sublist _ _) hs

/-- Claim C2, amended: on a valid room switch, the mover (and only the
mover) receives a `message_history` payload followed by a `room_joined`
acknowledgement of the new room name; the history is ordered ascending by
creation time but contains the FIRST (oldest) up-to-100 messages of the
new room — `sort({createdAt:1}).limit(100)` — not the most recent 100
when the room holds more than 100 messages. -/
theorem C2_theorem (st : ServerState) (sid newRoom : String) (u : User)
    (now : Nat) (hu : alistGet st.users sid = some u)
    (hr : rooms.contains newRoom = true) (hne : u.room ≠ newRoom) :
    (step st (.joinRoom sid newRoom) now).2
      = [⟨.broadcastRoom sid u.room,
          .notification "leave" (u.username ++ " left the room") u.room⟩,
         ⟨.broadcastRoom sid newRoom,
          .notification "join" (u.username ++ " joined the room") newRoom⟩,
         ⟨.self sid, .messageHistory (historyFor st.store newRoom)⟩,
         ⟨.self sid, .roomJoined newRoom⟩,
         ⟨.all, .userList ((alistSet st.users sid { u with room := newRoom }).map
            (fun p => projUser p.2))⟩] ∧
    historyFor st.store newRoom
      = (sortByTime (st.store.filter (fun m => m.room == newRoom))).take 100 ∧
    List.Sorted (fun a b : Message => a.createdAt ≤ b.createdAt)
      (historyFor st.store newRoom) ∧
    receives st (.self sid) sid = true ∧
    (∀ c, c ≠ sid → receives st (.self sid) c = false) := by
  refine ⟨?_, rfl, timeSorted_historyFor st.store newRoom, by simp [receives], ?_⟩
  · show (stepJoinRoom st sid newRoom).2 = _
    have hmem : newRoom ∈ rooms := by simpa using hr
    simp [stepJoinRoom, hu, hmem, hne]
  · intro c hc
    simp [receives, hc]

def mkMsg (i : Nat) : Message :=
  ⟨i, "alice", "a", "hi", "random", false, none, true, false, [], false,
   none, i, i⟩

def st2 : ServerState :=
  ⟨[("a", ⟨"a", "alice", "general", true, 0⟩)], [],
   (List.range 101).map mkMsg, 101⟩

/-- Claim C2 counterexample: with 101 messages in `"random"`, the newest
message (`mkMsg 100`) is among the most recent 100 but absent from the
`message_history` payload the mover receives — the replay is the oldest
100, not the most recent 100. -/
theorem C2_counterexample :
    (⟨.self "a", .messageHistory (historyFor st2.store "random")⟩ : Emit)
      ∈ (step st2 (.joinRoom "a" "random") 200).2 ∧
    mkMsg 100 ∈ st2.store ∧ (mkMsg 100).room = "random" ∧
    mkMsg 100 ∈ mostRecentSpec st2.store "random" 100 ∧
    mkMsg 100 ∉ historyFor st2.store "random" := by
  refine ⟨by decide, by decide, by decide, by decide, by decide⟩

/-- Claim C2 witness: the amended statement at the concrete state
`st2`. -/
theorem C2_witness :
    List.Sorted (fun a b : Message => a.createdAt ≤ b.createdAt)
      (historyFor st2.store "random") ∧
    receives st2 (.self "a") "a" = true :=
  ⟨(C2_theorem st2 "a" "random" ⟨"a", "alice", "general", true, 0⟩ 200 rfl rfl
      (by decide)).2.2.1,
   (C2_theorem st2 "a" "random" ⟨"a", "alice", "general", true, 0⟩ 200 rfl rfl
      (by decide)).2.2.2.1⟩

/-! ### Claims C3 and C10: the add_reaction handler -/

theorem fetchMsg_replaceMsg (store : List Message) (mid : Nat)
    (m1 : Message) (hm1 : (m1.mid == mid) = true) :
    ∀ m, fetchMsg store mid = some m →
      fetchMsg (replaceMsg store mid m1) mid = some m1 := by
  induction store with
  | nil => intro m hf; simp [fetchMsg] at hf
  | cons x xs ih =>
    intro m hf
    by_cases hx : (x.mid == mid) = true
    · simp [fetchMsg, replaceMsg, List.find?, hx, hm1]
    · have hf2 : fetchMsg xs mid = some m := by
        unfold fetchMsg at hf ⊢
        simpa [List.find?, hx] using hf
      have hgoal := ih m hf2
      unfold fetchMsg replaceMsg at hgoal ⊢
      simpa [List.find?, hx] using hgoal

theorem countUser_reactUpsert (rs : List Reaction) (uid e : String) :
    countUser (reactUpsert rs uid e) uid = max (countUser rs uid) 1 := by
  induction rs with
  | nil => simp [reactUpsert, countUser]
  | cons r rest ih =>
    by_cases h : (r.userId == uid) = true
    · simp [reactUpsert, h, countUser]
    · simp [reactUpsert, h, countUser] at ih ⊢
      simpa [countUser] using ih

theorem findEmoji_reactUpsert (rs : List Reaction) (uid e : String) :
    findEmoji (reactUpsert rs uid e) uid = some e := by
  induction rs with
  | nil => simp [reactUpsert, findEmoji, List.find?]
  | cons r rest ih =>
    by_cases h : (r.userId == uid) = true
    · simp [reactUpsert, h, findEmoji, List.find?]
    · unfold findEmoji at ih ⊢
      simpa [reactUpsert, h, List.find?] using ih

theorem reactUpsert_of_not_found (rs : List Reaction) (uid e : String)
    (h : findEmoji rs uid = none) :
    reactUpsert rs uid e = rs ++ [⟨uid, e⟩] := by
  induction rs with
  | nil => rfl
  | cons r rest ih =>
    by_cases hr : (r.userId == uid) = true
    · exfalso
      unfold findEmoji at h
      simp [List.find?, hr] at h
    · have h2 : findEmoji rest uid = none := by
        unfold findEmoji at h ⊢
        simpa [List.find?, hr] using h
      simp [reactUpsert, hr]
      exact ih h2

theorem applyReactions_append (rs : List Reaction) (uid : String)
    (es1 es2 : List String) :
    applyReactions rs uid (es1 ++ es2)
      = applyReactions (applyReactions rs uid es1) uid es2 := by
  induction es1 generalizing rs with
  | nil => rfl
  | cons e es ih => simpa [applyReactions] using ih (reactUpsert rs uid e)

theorem countUser_applyReactions_le (uid : String) (es : List String) :
    ∀ rs, countUser rs uid ≤ 1 →
      countUser (applyReactions rs uid es) uid ≤ 1 := by
  induction es with
  | nil => intro rs h; exact h
  | cons e es ih =>
    intro rs h
    have h1 : countUser (reactUpsert rs uid e) uid ≤ 1 := by
      rw [countUser_reactUpsert]; omega
    exact ih (reactUpsert rs uid e) h1

theorem countUser_applyReactions_last (rs : List Reaction) (uid : String)
    (es : List String) (e : String) (h : countUser rs uid ≤ 1) :
    countUser (applyReactions rs uid (es ++ [e])) uid = 1 := by
  rw [applyReactions_append]
  show countUser (reactUpsert (applyReactions rs uid es) uid e) uid = 1
  rw [countUser_reactUpsert]
  have := countUser_applyReactions_le uid es rs h
  omega

theorem findEmoji_applyReactions_last (rs : List Reaction) (uid : String)
    (es : List String) (e : String) :
    findEmoji (applyReactions rs uid (es ++ [e])) uid = some e := by
  rw [applyReactions_append]
  exact findEmoji_reactUpsert _ uid e

/-- Claim C3: the `add_reaction` upsert keeps at most one reaction entry
per user — starting from a message whose reactions hold at most one entry
for `sid`, any positive number of upserts by `sid` leaves exactly one
entry for `sid`, its emoji that of the latest call; an existing entry is
overwritten in place, otherwise `{userId, emoji}` is appended. -/
theorem C3_theorem (st : ServerState) (sid : String) (mid : Nat)
    (emoji : String) (now : Nat) (m : Message)
    (hm : fetchMsg st.store mid = some m)
    (hc : countUser m.reactions sid ≤ 1) :
    ∃ m1, fetchMsg ((step st (.addReaction sid mid emoji) now).1).store mid
        = some m1 ∧
      m1.reactions = reactUpsert m.reactions sid emoji ∧
      countUser m1.reactions sid = 1 ∧
      findEmoji m1.reactions sid = some emoji ∧
      (findEmoji m.reactions sid = none →
        m1.reactions = m.reactions ++ [⟨sid, emoji⟩]) ∧
      (∀ es e2,
        countUser (applyReactions m1.reactions sid (es ++ [e2])) sid = 1 ∧
        findEmoji (applyReactions m1.reactions sid (es ++ [e2])) sid
          = some e2) := by
  have hm2 : List.find? (fun x => x.mid == mid) st.store = some m := hm
  have hmid : (m.mid == mid) = true := by
    have h0 := List.find?_some hm2
    simpa using h0
  refine ⟨{ m with
              reactions := reactUpsert m.reactions sid emoji,
              updatedAt := now }, ?_, rfl, ?_, ?_, ?_, ?_⟩
  · show fetchMsg (stepAddReaction st sid mid emoji now).1.store mid = _
    unfold stepAddReaction
    rw [hm]
    exact fetchMsg_replaceMsg st.store mid _ hmid m hm
  · show countUser (reactUpsert m.reactions sid emoji) sid = 1
    rw [countUser_reactUpsert]
    omega
  · exact findEmoji_reactUpsert m.reactions sid emoji
  · intro hnone
    exact reactUpsert_of_not_found m.reactions sid emoji hnone
  · intro es e2
    have h1 : countUser (reactUpsert m.reactions sid emoji) sid ≤ 1 := by
      rw [countUser_reactUpsert]; omega
    exact ⟨countUser_applyReactions_last _ sid es e2 h1,
           findEmoji_applyReactions_last _ sid es e2⟩

def st3 : ServerState :=
  ⟨[], [],
   [⟨0, "alice", "a", "hi", "general", false, none, true, false, [], false,
     none, 0, 0⟩], 1⟩

/-- Claim C3 witness: the statement at a concrete one-message store. -/
theorem C3_witness :
    ∃ m1, fetchMsg ((step st3 (.addReaction "u" 0 "x") 5).1).store 0
        = some m1 ∧
      m1.reactions = reactUpsert ([] : List Reaction) "u" "x" ∧
      countUser m1.reactions "u" = 1 ∧
      findEmoji m1.reactions "u" = some "x" ∧
      (findEmoji ([] : List Reaction) "u" = none →
        m1.reactions = ([] : List Reaction) ++ [⟨"u", "x"⟩]) ∧
      (∀ es e2,
        countUser (applyReactions m1.reactions "u" (es ++ [e2])) "u" = 1 ∧
        findEmoji (applyReactions m1.reactions "u" (es ++ [e2])) "u"
          = some e2) :=
  C3_theorem st3 "u" 0 "x" 5
    ⟨0, "alice", "a", "hi", "general", false, none, true, false, [], false,
     none, 0, 0⟩ rfl (by decide)

/-- Claim C10: `add_reaction` changes only the fetched message's
`reactions` (and the store-managed `updatedAt`); every other field of the
persisted message equals the fetched one. -/
theorem C10_theorem (st : ServerState) (sid : String) (mid : Nat)
    (emoji : String) (now : Nat) (m : Message)
    (hm : fetchMsg st.store mid = some m) :
    ∃ m1, fetchMsg ((step st (.addReaction sid mid emoji) now).1).store mid
        = some m1 ∧
      m1.reactions = reactUpsert m.reactions sid emoji ∧
      m1.updatedAt = now ∧
      m1.sender = m.sender ∧ m1.senderId = m.senderId ∧
      m1.message = m.message ∧ m1.room = m.room ∧
      m1.isPrivate = m.isPrivate ∧ m1.recipientId = m.recipientId ∧
      m1.delivered = m.delivered ∧ m1.read = m.read ∧
      m1.edited = m.edited ∧ m1.image = m.image ∧
      m1.createdAt = m.createdAt := by
  have hm2 : List.find? (fun x => x.mid == mid) st.store = some m := hm
  have hmid : (m.mid == mid) = true := by
    have h0 := List.find?_some hm2
    simpa using h0
  refine ⟨{ m with
              reactions := reactUpsert m.reactions sid emoji,
              updatedAt := now }, ?_, rfl, rfl, rfl, rfl, rfl, rfl, rfl, rfl,
          rfl, rfl, rfl, rfl, rfl⟩
  show fetchMsg (stepAddReaction st sid mid emoji now).1.store mid = _
  unfold stepAddReaction
  rw [hm]
  exact fetchMsg_replaceMsg st.store mid _ hmid m hm

def st10 : ServerState :=
  ⟨[], [],
   [⟨3, "bob", "b", "yo", "tech", false, none, true, false,
     [⟨"u", "old"⟩], true, some "img", 2, 2⟩], 4⟩

/-- Claim C10 witness: the frame statement at a concrete store. -/
theorem C10_witness :
    ∃ m1, fetchMsg ((step st10 (.addReaction "u" 3 "new") 9).1).store 3
        = some m1 ∧
      m1.reactions = reactUpsert [⟨"u", "old"⟩] "u" "new" ∧
      m1.updatedAt = 9 ∧
      m1.sender = "bob" ∧ m1.senderId = "b" ∧
      m1.message = "yo" ∧ m1.room = "tech" ∧
      m1.isPrivate = false ∧ m1.recipientId = none ∧
      m1.delivered = true ∧ m1.read = false ∧
      m1.edited = true ∧ m1.image = some "img" ∧
      m1.createdAt = 2 :=
  C10_theorem st10 "u" 3 "new" 9
    ⟨3, "bob", "b", "yo", "tech", false, none, true, false,
     [⟨"u", "old"⟩], true, some "img", 2, 2⟩ rfl

/-- Claim C4 witness: the amended statement at the concrete state
`st4`. -/
theorem C4_witness :
    (step st4 (.typingStop "a") 0).2
      = [⟨.broadcastRoom "a" "general",
          .typingUsers (roomTypingAll st4.users
            (alistDelete st4.typingUsers "a") "general")⟩] ∧
    receives st4 (.broadcastRoom "a" "general") "a" = false :=
  ⟨(C4_theorem st4 "a" ⟨"a", "alice", "general", true, 0⟩ 0 rfl).2.1,
   (C4_theorem st4 "a" ⟨"a", "alice", "general", true, 0⟩ 0 rfl).2.2.2.1⟩

/-! ### Claim C8 -/

/-- Claim C8: `private_message` from A to B is a silent no-op when either
end is unregistered; otherwise, after the message is persisted, exactly
the id rooms of A and B receive `receive_message` with `isPrivate = true`
and `room = derivePrivateRoomId A B`, B's id room alone additionally
receives a `notification` of type `"private"`, and any third connection C
(distinct from A and B, and not sitting in a named room that collides
with either id) receives neither emission. -/
theorem C8_theorem (st : ServerState) (A B body : String) (now : Nat) :
    ((alistGet st.users A = none ∨ alistGet st.users B = none) →
      step st (.privateMessage A B body) now = (st, [])) ∧
    (∀ sA, alistGet st.users A = some sA →
      ∀ uB, alistGet st.users B = some uB →
      (step st (.privateMessage A B body) now).1.store
          = st.store ++ [privMsgOf st A B body now sA] ∧
      (step st (.privateMessage A B body) now).2
        = [⟨.room A, .receiveMessage (privMsgOf st A B body now sA)⟩,
           ⟨.room B, .receiveMessage (privMsgOf st A B body now sA)⟩,
           ⟨.room B, .notification "private"
              ("New private message from " ++ sA.username)
              (derivePrivateRoomId A B)⟩] ∧
      (privMsgOf st A B body now sA).isPrivate = true ∧
      (privMsgOf st A B body now sA).room = derivePrivateRoomId A B ∧
      receives st (.room A) A = true ∧
      receives st (.room B) B = true ∧
      (A ≠ B → userRoom st A ≠ some B → receives st (.room B) A = false) ∧
      (∀ C, C ≠ A → C ≠ B → userRoom st C ≠ some A → userRoom st C ≠ some B →
        receives st (.room A) C = false ∧ receives st (.room B) C = false)) := by
  constructor
  · intro h
    show stepPrivateMessage st A B body now = (st, [])
    rcases h with h | h
    · cases hB : alistGet st.users B <;> simp [stepPrivateMessage, h, hB]
    · cases hA : alistGet st.users A <;> simp [stepPrivateMessage, h, hA]
  · intro sA hA uB hB
    refine ⟨?_, ?_, rfl, rfl, by simp [receives], by simp [receives],
            ?_, ?_⟩
    · show (stepPrivateMessage st A B body now).1.store = _
      simp [stepPrivateMessage, hA, hB]
    · show (stepPrivateMessage st A B body now).2 = _
      simp [stepPrivateMessage, hA, hB]
    · intro hne hroom
      simp [receives, hne, hroom]
    · intro C h1 h2 h3 h4
      exact ⟨by simp [receives, h1, h3], by simp [receives, h2, h4]⟩

def st8 : ServerState :=
  ⟨[("a", ⟨"a", "alice", "general", true, 0⟩),
    ("b", ⟨"b", "bob", "general", true, 0⟩),
    ("c", ⟨"c", "carol", "general", true, 0⟩)], [], [], 0⟩

/-- Claim C8 witness: the delivery statement at a concrete three-user
state. -/
theorem C8_witness :
    (step st8 (.privateMessage "a" "b" "hi") 3).2
      = [⟨.room "a", .receiveMessage
            (privMsgOf st8 "a" "b" "hi" 3 ⟨"a", "alice", "general", true, 0⟩)⟩,
         ⟨.room "b", .receiveMessage
            (privMsgOf st8 "a" "b" "hi" 3 ⟨"a", "alice", "general", true, 0⟩)⟩,
         ⟨.room "b", .notification "private"
            ("New private message from " ++ "alice")
            (derivePrivateRoomId "a" "b")⟩] ∧
    receives st8 (.room "a") "c" = false ∧
    receives st8 (.room "b") "c" = false :=
  ⟨((C8_theorem st8 "a" "b" "hi" 3).2 ⟨"a", "alice", "general", true, 0⟩ rfl
      ⟨"b", "bob", "general", true, 0⟩ rfl).2.1,
   (((C8_theorem st8 "a" "b" "hi" 3).2 ⟨"a", "alice", "general", true, 0⟩ rfl
      ⟨"b", "bob", "general", true, 0⟩ rfl).2.2.2.2.2.2.2 "c" (by decide)
      (by decide) (by decide) (by decide)).1,
   (((C8_theorem st8 "a" "b" "hi" 3).2 ⟨"a", "alice", "general", true, 0⟩ rfl
      ⟨"b", "bob", "general", true, 0⟩ rfl).2.2.2.2.2.2.2 "c" (by decide)
      (by decide) (by decide) (by decide)).2⟩

/-! ### Shape of an arbitrary step, shared by the registry invariants -/

/-- Every handler either leaves both registries unchanged and emits no
`user_list` at all, or is one of the five registry-touching handlers,
whose new registries and `user_list` payloads are characterized
explicitly. -/
theorem step_shape (st : ServerState) (ev : Ev) (now : Nat) :
    ((step st ev now).1.users = st.users ∧
     (step st ev now).1.typingUsers = st.typingUsers ∧
     (∀ e ∈ (step st ev now).2, ∀ us : List UserProj,
        e.payload ≠ .userList us)) ∨
    (∃ sid username,
      ev = .userJoin sid username ∧
      (step st ev now).1.users
        = alistSet st.users sid ⟨sid, username, "general", true, now⟩ ∧
      (step st ev now).1.typingUsers = st.typingUsers ∧
      (∀ e ∈ (step st ev now).2, ∀ us, e.payload = .userList us →
        us = (alistSet st.users sid
          ⟨sid, username, "general", true, now⟩).map (fun p => projUser p.2))) ∨
    (∃ sid newRoom user,
      ev = .joinRoom sid newRoom ∧ alistGet st.users sid = some user ∧
      (step st ev now).1.users
        = alistSet st.users sid { user with room := newRoom } ∧
      (step st ev now).1.typingUsers = st.typingUsers ∧
      (∀ e ∈ (step st ev now).2, ∀ us, e.payload = .userList us →
        us = (alistSet st.users sid
          { user with room := newRoom }).map (fun p => projUser p.2))) ∨
    (∃ sid user,
      ev = .typingStart sid ∧ alistGet st.users sid = some user ∧
      (step st ev now).1.users = st.users ∧
      (step st ev now).1.typingUsers
        = alistSet st.typingUsers sid user.username ∧
      (∀ e ∈ (step st ev now).2, ∀ us : List UserProj,
        e.payload ≠ .userList us)) ∨
    (∃ sid,
      ev = .typingStop sid ∧
      (step st ev now).1.users = st.users ∧
      (step st ev now).1.typingUsers = alistDelete st.typingUsers sid ∧
      (∀ e ∈ (step st ev now).2, ∀ us : List UserProj,
        e.payload ≠ .userList us)) ∨
    (∃ sid user,
      ev = .disconnect sid ∧ alistGet st.users sid = some user ∧
      (step st ev now).1.users
        = alistDelete (alistSet st.users sid { user with online := false }) sid ∧
      (step st ev now).1.typingUsers = alistDelete st.typingUsers sid ∧
      (∀ e ∈ (step st ev now).2, ∀ us, e.payload = .userList us →
        us = ((alistSet st.users sid
            { user with online := false }).filter
            (fun p => p.2.online)).map (fun p => projUser p.2))) := by
  cases ev with
  | userJoin sid username =>
    refine Or.inr (Or.inl ⟨sid, username, rfl, rfl, rfl, ?_⟩)
    intro e he us hp
    have he2 : e ∈ (stepUserJoin st sid username now).2 := he
    simp only [stepUserJoin, List.mem_cons, List.not_mem_nil, or_false] at he2
    rcases he2 with rfl | rfl | rfl | rfl <;> simp_all
  | sendMessage sid message room image =>
    left
    cases hg : alistGet st.users sid with
    | none =>
      refine ⟨by simp [step, stepSendMessage, hg],
              by simp [step, stepSendMessage, hg], ?_⟩
      intro e he us
      simp [step, stepSendMessage, hg] at he
    | some u =>
      refine ⟨by simp [step, stepSendMessage, hg],
              by simp [step, stepSendMessage, hg], ?_⟩
      intro e he us
      simp [step, stepSendMessage, hg] at he
      subst he
      simp
  | editMessage mid content =>
    left
    cases hg : fetchMsg st.store mid with
    | none =>
      refine ⟨by simp [step, stepEditMessage, hg],
              by simp [step, stepEditMessage, hg], ?_⟩
      intro e he us
      simp [step, stepEditMessage, hg] at he
    | some m =>
      refine ⟨by simp [step, stepEditMessage, hg],
              by simp [step, stepEditMessage, hg], ?_⟩
      intro e he us
      simp [step, stepEditMessage, hg] at he
      subst he
      simp
  | deleteMessage mid =>
    left
    cases hg : fetchMsg st.store mid with
    | none =>
      refine ⟨by simp [step, stepDeleteMessage, hg],
              by simp [step, stepDeleteMessage, hg], ?_⟩
      intro e he us
      simp [step, stepDeleteMessage, hg] at he
    | some m =>
      refine ⟨by simp [step, stepDeleteMessage, hg],
              by simp [step, stepDeleteMessage, hg], ?_⟩
      intro e he us
      simp [step, stepDeleteMessage, hg] at he
      subst he
      simp
  | joinRoom sid newRoom =>
    cases hg : alistGet st.users sid with
    | none =>
      left
      refine ⟨by simp [step, stepJoinRoom, hg],
              by simp [step, stepJoinRoom, hg], ?_⟩
      intro e he us
      simp [step, stepJoinRoom, hg] at he
    | some user =>
      cases hgd : (!rooms.contains newRoom || user.room == newRoom) with
      | true =>
        left
        have hstep : step st (.joinRoom sid newRoom) now = (st, []) := by
          show stepJoinRoom st sid newRoom = (st, [])
          simp [stepJoinRoom, hg, hgd]
          intro hmem
          have h0 := hgd
          rw [Bool.or_eq_true] at h0
          rcases h0 with h1 | h1
          · simp at h1
            exact absurd hmem h1
          · simpa using h1
        refine ⟨by rw [hstep], by rw [hstep], ?_⟩
        intro e he us
        rw [hstep] at he
        simp at he
      | false =>
        have hstep : step st (.joinRoom sid newRoom) now
            = ((⟨alistSet st.users sid { user with room := newRoom },
                  st.typingUsers, st.store, st.nextMid⟩ : ServerState),
               [⟨.broadcastRoom sid user.room,
                  .notification "leave"
                    (user.username ++ " left the room") user.room⟩,
                ⟨.broadcastRoom sid newRoom,
                  .notification "join"
                    (user.username ++ " joined the room") newRoom⟩,
                ⟨.self sid, .messageHistory (historyFor st.store newRoom)⟩,
                ⟨.self sid, .roomJoined newRoom⟩,
                ⟨.all, .userList ((alistSet st.users sid
                    { user with room := newRoom }).map
                    (fun p => projUser p.2))⟩]) := by
          show stepJoinRoom st sid newRoom = _
          simp only [stepJoinRoom, hg, hgd]
          rfl
        refine Or.inr (Or.inr (Or.inl
          ⟨sid, newRoom, user, rfl, hg, by rw [hstep], by rw [hstep], ?_⟩))
        intro e he us hp
        rw [hstep] at he
        simp only [List.mem_cons, List.not_mem_nil, or_false] at he
        rcases he with rfl | rfl | rfl | rfl | rfl <;> simp_all
  | typingStart sid =>
    cases hg : alistGet st.users sid with
    | none =>
      left
      refine ⟨by simp [step, stepTypingStart, hg],
              by simp [step, stepTypingStart, hg], ?_⟩
      intro e he us
      simp [step, stepTypingStart, hg] at he
    | some user =>
      refine Or.inr (Or.inr (Or.inr (Or.inl ⟨sid, user, rfl, hg,
        by simp [step, stepTypingStart, hg],
        by simp [step, stepTypingStart, hg], ?_⟩)))
      intro e he us
      simp [step, stepTypingStart, hg] at he
      subst he
      simp
  | typingStop sid =>
    cases hg : alistGet st.users sid with
    | none =>
      left
      refine ⟨by simp [step, stepTypingStop, hg],
              by simp [step, stepTypingStop, hg], ?_⟩
      intro e he us
      simp [step, stepTypingStop, hg] at he
    | some user =>
      refine Or.inr (Or.inr (Or.inr (Or.inr (Or.inl ⟨sid, rfl,
        by simp [step, stepTypingStop, hg],
        by simp [step, stepTypingStop, hg], ?_⟩))))
      intro e he us
      simp [step, stepTypingStop, hg] at he
      subst he
      simp
  | addReaction sid mid emoji =>
    left
    cases hg : fetchMsg st.store mid with
    | none =>
      refine ⟨by simp [step, stepAddReaction, hg],
              by simp [step, stepAddReaction, hg], ?_⟩
      intro e he us
      simp [step, stepAddReaction, hg] at he
    | some m =>
      refine ⟨by simp [step, stepAddReaction, hg],
              by simp [step, stepAddReaction, hg], ?_⟩
      intro e he us
      simp [step, stepAddReaction, hg] at he
      subst he
      simp
  | messageRead mid =>
    left
    cases hg : fetchMsg st.store mid with
    | none =>
      refine ⟨by simp [step, stepMessageRead, hg],
              by simp [step, stepMessageRead, hg], ?_⟩
      intro e he us
      simp [step, stepMessageRead, hg] at he
    | some m =>
      refine ⟨by simp [step, stepMessageRead, hg],
              by simp [step, stepMessageRead, hg], ?_⟩
      intro e he us
      simp [step, stepMessageRead, hg] at he
      subst he
      simp
  | privateMessage sid toUserId body =>
    left
    cases hg1 : alistGet st.users sid with
    | none =>
      refine ⟨by simp [step, stepPrivateMessage, hg1],
              by simp [step, stepPrivateMessage, hg1], ?_⟩
      intro e he us
      simp [step, stepPrivateMessage, hg1] at he
    | some sender =>
      cases hg2 : alistGet st.users toUserId with
      | none =>
        refine ⟨by simp [step, stepPrivateMessage, hg1, hg2],
                by simp [step, stepPrivateMessage, hg1, hg2], ?_⟩
        intro e he us
        simp [step, stepPrivateMessage, hg1, hg2] at he
      | some recip =>
        refine ⟨by simp [step, stepPrivateMessage, hg1, hg2],
                by simp [step, stepPrivateMessage, hg1, hg2], ?_⟩
        intro e he us
        simp [step, stepPrivateMessage, hg1, hg2] at he
        rcases he with rfl | rfl | rfl <;> simp
  | disconnect sid =>
    cases hg : alistGet st.users sid with
    | none =>
      left
      refine ⟨by simp [step, stepDisconnect, hg],
              by simp [step, stepDisconnect, hg], ?_⟩
      intro e he us
      simp [step, stepDisconnect, hg] at he
    | some user =>
      refine Or.inr (Or.inr (Or.inr (Or.inr (Or.inr ⟨sid, user, rfl, hg,
        by simp [step, stepDisconnect, hg],
        by simp [step, stepDisconnect, hg], ?_⟩))))
      intro e he us hp
      simp only [step, stepDisconnect, hg, List.mem_cons, List.not_mem_nil,
        or_false] at he
      rcases he with rfl | rfl <;> simp_all

/-! ### Claim C7 -/

/-- Between handler turns every registry entry is online: `user_join`
creates entries with `online: true` and `disconnect` deletes the entry it
marked offline before its handler returns. -/
def allOnline (st : ServerState) : Prop := ∀ p ∈ st.users, p.2.online = true

theorem allOnline_step (st : ServerState) (ev : Ev) (now : Nat)
    (h : allOnline st) :
    allOnline (step st ev now).1 ∧
    (∀ e ∈ (step st ev now).2, ∀ us, e.payload = .userList us →
      ∀ x ∈ us, ∃ u : User, u.online = true ∧ x = projUser u) := by
  rcases step_shape st ev now with
    ⟨hu, _, hem⟩ | ⟨sid, username, _, hu, _, hem⟩ |
    ⟨sid, newRoom, user, _, hg, hu, _, hem⟩ |
    ⟨sid, user, _, hg, hu, _, hem⟩ | ⟨sid, _, hu, _, hem⟩ |
    ⟨sid, user, _, hg, hu, _, hem⟩
  · exact ⟨fun p hp => h p (hu ▸ hp),
           fun e he us hp => absurd hp (hem e he us)⟩
  · constructor
    · intro p hp
      rw [hu] at hp
      rcases mem_alistSet hp with h1 | h1
      · rw [h1]
      · exact h p h1
    · intro e he us hp x hx
      rw [hem e he us hp] at hx
      obtain ⟨p, hpm, rfl⟩ := List.mem_map.1 hx
      rcases mem_alistSet hpm with h1 | h1
      · exact ⟨p.2, by rw [h1], rfl⟩
      · exact ⟨p.2, h p h1, rfl⟩
  · have honline : user.online = true := h (sid, user) (alistGet_mem hg)
    constructor
    · intro p hp
      rw [hu] at hp
      rcases mem_alistSet hp with h1 | h1
      · rw [h1]
        exact honline
      · exact h p h1
    · intro e he us hp x hx
      rw [hem e he us hp] at hx
      obtain ⟨p, hpm, rfl⟩ := List.mem_map.1 hx
      rcases mem_alistSet hpm with h1 | h1
      · exact ⟨p.2, by rw [h1]; exact honline, rfl⟩
      · exact ⟨p.2, h p h1, rfl⟩
  · exact ⟨fun p hp => h p (hu ▸ hp),
           fun e he us hp => absurd hp (hem e he us)⟩
  · exact ⟨fun p hp => h p (hu ▸ hp),
           fun e he us hp => absurd hp (hem e he us)⟩
  · constructor
    · intro p hp
      rw [hu] at hp
      obtain ⟨hp1, hp2⟩ := mem_alistDelete hp
      rcases mem_alistSet hp1 with h1 | h1
      · exact absurd (by rw [h1]) hp2
      · exact h p h1
    · intro e he us hp x hx
      rw [hem e he us hp] at hx
      obtain ⟨p, hpm, rfl⟩ := List.mem_map.1 hx
      exact ⟨p.2, (List.mem_filter.1 hpm).2, rfl⟩

theorem allOnline_runFrom_aux (evs : List (Ev × Nat)) :
    ∀ st, allOnline st → allOnline (runFrom st evs) := by
  induction evs with
  | nil => intro st h; exact h
  | cons p ps ih =>
    intro st h
    exact ih _ (allOnline_step st p.1 p.2 h).1

theorem allOnline_runFrom (evs : List (Ev × Nat)) :
    allOnline (runFrom initState evs) :=
  allOnline_runFrom_aux evs initState (by intro p hp; simp [initState] at hp)

/-- Claim C7: in every state the server can reach from startup, every
`user_list` payload any handler broadcasts — join, room switch or
disconnect — contains only entries whose `online` flag is true, each the
`{id, username, room, online}` projection of a registry entry. -/
theorem C7_theorem (evs : List (Ev × Nat)) (ev : Ev) (now : Nat) :
    ∀ e ∈ (step (runFrom initState evs) ev now).2, ∀ us,
      e.payload = .userList us →
      ∀ x ∈ us, x.online = true ∧
        ∃ u : User, u.online = true ∧ x = projUser u := by
  intro e he us hp x hx
  obtain ⟨u, hu1, hu2⟩ :=
    (allOnline_step (runFrom initState evs) ev now
      (allOnline_runFrom evs)).2 e he us hp x hx
  refine ⟨?_, u, hu1, hu2⟩
  rw [hu2]
  exact hu1

/-- Claim C7 witness: the roster broadcast by a second join after one
prior join. -/
theorem C7_witness :
    (⟨"b", "ben", "general", true⟩ : UserProj).online = true ∧
    ∃ u : User, u.online = true ∧
      (⟨"b", "ben", "general", true⟩ : UserProj) = projUser u :=
  C7_theorem [(.userJoin "a" "anna", 0)] (.userJoin "b" "ben") 1
    ⟨.all, .userList [⟨"a", "anna", "general", true⟩,
                      ⟨"b", "ben", "general", true⟩]⟩
    (by decide) _ rfl ⟨"b", "ben", "general", true⟩ (by decide)

/-! ### Claim C9 -/

/-- Registry entries record their own key as `id`. -/
def idsConsistent (st : ServerState) : Prop := ∀ p ∈ st.users, p.2.id = p.1

theorem idsConsistent_step (st : ServerState) (ev : Ev) (now : Nat)
    (h : idsConsistent st) : idsConsistent (step st ev now).1 := by
  rcases step_shape st ev now with
    ⟨hu, _, _⟩ | ⟨sid, username, _, hu, _, _⟩ |
    ⟨sid, newRoom, user, _, hg, hu, _, _⟩ |
    ⟨sid, user, _, hg, hu, _, _⟩ | ⟨sid, _, hu, _, _⟩ |
    ⟨sid, user, _, hg, hu, _, _⟩
  · exact fun p hp => h p (hu ▸ hp)
  · intro p hp
    rw [hu] at hp
    rcases mem_alistSet hp with h1 | h1
    · rw [h1]
    · exact h p h1
  · intro p hp
    rw [hu] at hp
    rcases mem_alistSet hp with h1 | h1
    · rw [h1]
      exact h (sid, user) (alistGet_mem hg)
    · exact h p h1
  · exact fun p hp => h p (hu ▸ hp)
  · exact fun p hp => h p (hu ▸ hp)
  · intro p hp
    rw [hu] at hp
    obtain ⟨hp1, hp2⟩ := mem_alistDelete hp
    rcases mem_alistSet hp1 with h1 | h1
    · exact absurd (by rw [h1]) hp2
    · exact h p h1

theorem idsConsistent_runFrom_aux (evs : List (Ev × Nat)) :
    ∀ st, idsConsistent st → idsConsistent (runFrom st evs) := by
  induction evs with
  | nil => intro st h; exact h
  | cons p ps ih =>
    intro st h
    exact ih _ (idsConsistent_step st p.1 p.2 h)

theorem idsConsistent_runFrom (evs : List (Ev × Nat)) :
    idsConsistent (runFrom initState evs) :=
  idsConsistent_runFrom_aux evs initState
    (by intro p hp; simp [initState] at hp)

/-- Connection `a` is absent from both registries. -/
def noA (a : String) (st : ServerState) : Prop :=
  (∀ p ∈ st.users, p.1 ≠ a ∧ p.2.id ≠ a) ∧
  (∀ p ∈ st.typingUsers, p.1 ≠ a)

theorem noA_step (a : String) (st : ServerState) (ev : Ev) (now : Nat)
    (h : noA a st) (hact : registryActor ev a = false) :
    noA a (step st ev now).1 ∧
    (∀ e ∈ (step st ev now).2, ∀ us, e.payload = .userList us →
      ∀ x ∈ us, x.id ≠ a) := by
  rcases step_shape st ev now with
    ⟨hu, ht, hem⟩ | ⟨sid, username, hev, hu, ht, hem⟩ |
    ⟨sid, newRoom, user, hev, hg, hu, ht, hem⟩ |
    ⟨sid, user, hev, hg, hu, ht, hem⟩ | ⟨sid, hev, hu, ht, hem⟩ |
    ⟨sid, user, hev, hg, hu, ht, hem⟩
  · exact ⟨⟨fun p hp => h.1 p (hu ▸ hp), fun p hp => h.2 p (ht ▸ hp)⟩,
           fun e he us hp => absurd hp (hem e he us)⟩
  · rw [hev] at hact
    have hsid : sid ≠ a := by simpa [registryActor] using hact
    constructor
    · constructor
      · intro p hp
        rw [hu] at hp
        rcases mem_alistSet hp with h1 | h1
        · rw [h1]
          exact ⟨hsid, hsid⟩
        · exact h.1 p h1
      · exact fun p hp => h.2 p (ht ▸ hp)
    · intro e he us hp x hx
      rw [hem e he us hp] at hx
      obtain ⟨p, hpm, rfl⟩ := List.mem_map.1 hx
      rcases mem_alistSet hpm with h1 | h1
      · rw [h1]
        exact hsid
      · exact (h.1 p h1).2
  · rw [hev] at hact
    have hsid : sid ≠ a := by simpa [registryActor] using hact
    have huid : user.id ≠ a := (h.1 (sid, user) (alistGet_mem hg)).2
    constructor
    · constructor
      · intro p hp
        rw [hu] at hp
        rcases mem_alistSet hp with h1 | h1
        · rw [h1]
          exact ⟨hsid, huid⟩
        · exact h.1 p h1
      · exact fun p hp => h.2 p (ht ▸ hp)
    · intro e he us hp x hx
      rw [hem e he us hp] at hx
      obtain ⟨p, hpm, rfl⟩ := List.mem_map.1 hx
      rcases mem_alistSet hpm with h1 | h1
      · rw [h1]
        exact huid
      · exact (h.1 p h1).2
  · rw [hev] at hact
    have hsid : sid ≠ a := by simpa [registryActor] using hact
    refine ⟨⟨fun p hp => h.1 p (hu ▸ hp), ?_⟩,
            fun e he us hp => absurd hp (hem e he us)⟩
    intro p hp
    rw [ht] at hp
    rcases mem_alistSet hp with h1 | h1
    · rw [h1]
      exact hsid
    · exact h.2 p h1
  · refine ⟨⟨fun p hp => h.1 p (hu ▸ hp), ?_⟩,
            fun e he us hp => absurd hp (hem e he us)⟩
    intro p hp
    rw [ht] at hp
    exact h.2 p (mem_alistDelete hp).1
  · have huid : user.id ≠ a := (h.1 (sid, user) (alistGet_mem hg)).2
    constructor
    · constructor
      · intro p hp
        rw [hu] at hp
        obtain ⟨hp1, hp2⟩ := mem_alistDelete hp
        rcases mem_alistSet hp1 with h1 | h1
        · exact absurd (by rw [h1]) hp2
        · exact h.1 p h1
      · intro p hp
        rw [ht] at hp
        exact h.2 p (mem_alistDelete hp).1
    · intro e he us hp x hx
      rw [hem e he us hp] at hx
      obtain ⟨p, hpm, rfl⟩ := List.mem_map.1 hx
      have hpm2 := List.mem_filter.1 hpm
      rcases mem_alistSet hpm2.1 with h1 | h1
      · rw [h1]
        exact huid
      · exact (h.1 p h1).2

theorem noA_run (a : String) (evs : List (Ev × Nat)) :
    ∀ st, noA a st → (∀ p ∈ evs, registryActor p.1 a = false) →
      noA a (runFrom st evs) ∧
      (∀ e ∈ emitsFrom st evs, ∀ us, e.payload = .userList us →
        ∀ x ∈ us, x.id ≠ a) := by
  induction evs with
  | nil =>
    intro st h _
    exact ⟨h, by intro e he; simp [emitsFrom] at he⟩
  | cons p ps ih =>
    intro st h hevs
    have hstep := noA_step a st p.1 p.2 h (hevs p (List.mem_cons_self p ps))
    have hrest := ih (step st p.1 p.2).1 hstep.1
      (fun q hq => hevs q (List.mem_cons_of_mem p hq))
    refine ⟨hrest.1, ?_⟩
    intro e he us hp x hx
    have he2 : e ∈ (step st p.1 p.2).2 ++ emitsFrom (step st p.1 p.2).1 ps :=
      he
    rcases List.mem_append.1 he2 with h2 | h2
    · exact hstep.2 e h2 us hp x hx
    · exact hrest.2 e h2 us hp x hx

theorem noA_after_disconnect (st : ServerState) (a : String) (u : User)
    (hu : alistGet st.users a = some u) (hid : idsConsistent st)
    (now : Nat) : noA a (step st (.disconnect a) now).1 := by
  have hstep : (step st (.disconnect a) now).1
      = (⟨alistDelete (alistSet st.users a { u with online := false }) a,
          alistDelete st.typingUsers a, st.store, st.nextMid⟩
          : ServerState) := by
    show (stepDisconnect st a).1 = _
    simp [stepDisconnect, hu]
  rw [hstep]
  constructor
  · intro p hp
    obtain ⟨hp1, hp2⟩ := mem_alistDelete hp
    refine ⟨hp2, ?_⟩
    rcases mem_alistSet hp1 with h1 | h1
    · exact absurd (by rw [h1]) hp2
    · rw [hid p h1]
      exact hp2
  · intro p hp
    exact (mem_alistDelete hp).2

/-- Claim C9: after connection `a` disconnects (from any reachable
state), `a` is gone from both registries; along any continuation whose
events are not `a`'s own, every broadcast `user_list` payload contains no
entry with id `a`, and at every intermediate state deleting `a` from
TypingState is a no-op for every room's typing computation — `a`'s entry
is absent from it. -/
theorem C9_theorem (evs0 : List (Ev × Nat)) (a : String) (u : User)
    (now : Nat) (hu : alistGet (runFrom initState evs0).users a = some u)
    (evs : List (Ev × Nat))
    (hevs : ∀ p ∈ evs, registryActor p.1 a = false) :
    noA a (step (runFrom initState evs0) (.disconnect a) now).1 ∧
    (∀ e ∈ emitsFrom
        (step (runFrom initState evs0) (.disconnect a) now).1 evs,
      ∀ us, e.payload = .userList us → ∀ x ∈ us, x.id ≠ a) ∧
    (∀ pre suff, evs = pre ++ suff →
      noA a (runFrom
        (step (runFrom initState evs0) (.disconnect a) now).1 pre) ∧
      (∀ r, roomTypingAll
          (runFrom (step (runFrom initState evs0)
            (.disconnect a) now).1 pre).users
          (runFrom (step (runFrom initState evs0)
            (.disconnect a) now).1 pre).typingUsers r
        = roomTypingAll
          (runFrom (step (runFrom initState evs0)
            (.disconnect a) now).1 pre).users
          (alistDelete (runFrom (step (runFrom initState evs0)
            (.disconnect a) now).1 pre).typingUsers a) r)) := by
  have h1 : noA a (step (runFrom initState evs0) (.disconnect a) now).1 :=
    noA_after_disconnect _ a u hu (idsConsistent_runFrom evs0) now
  have h2 := noA_run a evs _ h1 hevs
  refine ⟨h1, h2.2, ?_⟩
  intro pre suff heq
  have hpre : ∀ p ∈ pre, registryActor p.1 a = false := by
    intro p hp
    exact hevs p (by rw [heq]; exact List.mem_append_left suff hp)
  have h3 := noA_run a pre _ h1 hpre
  refine ⟨h3.1, ?_⟩
  intro r
  rw [alistDelete_eq_self (fun p hp => (h3.1.2 p hp))]

def evs9 : List (Ev × Nat) :=
  [(.userJoin "a" "anna", 0), (.userJoin "b" "ben", 1),
   (.typingStart "a", 2)]

def evs9b : List (Ev × Nat) := [(.typingStart "b", 4)]

/-- Claim C9 witness: a joins, starts typing and disconnects; along a
later typing event from b, a stays out of both registries and out of
every roster payload. -/
theorem C9_witness :
    noA "a" (step (runFrom initState evs9) (.disconnect "a") 3).1 ∧
    (∀ e ∈ emitsFrom (step (runFrom initState evs9) (.disconnect "a") 3).1
        evs9b,
      ∀ us, e.payload = .userList us → ∀ x ∈ us, x.id ≠ "a") :=
  ⟨(C9_theorem evs9 "a" ⟨"a", "anna", "general", true, 0⟩ 3 (by decide)
      evs9b (by decide)).1,
   (C9_theorem evs9 "a" ⟨"a", "anna", "general", true, 0⟩ 3 (by decide)
      evs9b (by decide)).2.1⟩

end Chat
